import Mathlib

/-!
Shallow embedding of the schema-inference pipeline of the
MarchingTorpedo/DataModelLangGraph repository and proofs about its
specification.

Embedded source files: `model_langgraph/analyzer.py` (type inference,
primary-key detection, foreign-key detection), `model_langgraph/layers.py`
(column metrics, tier classification, silver materialization) and
`model_langgraph/sql_generator.py` (DDL generation).

Modelling decisions, uniform across the file:
* Python dicts become association lists (`List (key × value)`), preserving
  insertion order; `dict.get` is `List.lookup`.
* pandas DataFrames become `Table` values: an ordered list of `Column`s,
  each with its storage dtype and a list of optional cell values
  (`none` = null/NaN).  `len(series)` is the length of the value list.
* Python floats used for fractions and thresholds become exact rationals
  (`ℚ`); `int(x)` on a nonnegative float becomes floor, i.e. `Nat` division.
* A pandas `mean()` over an empty column is NaN, and every `NaN < q`
  comparison is False; this is modelled by an `Option ℚ` null fraction that
  is `none` for an empty column, with comparisons returning `false` at
  `none`.
* Python string truthiness (`if s:`) is the `s ≠ ""` test; dict truthiness
  is nonemptiness.
-/

namespace DataModel

/-- Storage kind of a column (the pandas dtype, as far as the code
inspects it). -/
inductive DType where
  | dint
  | dfloat
  | dbool
  | ddatetime
  | dobject
deriving DecidableEq, Repr

/-- A cell value.  Values from different tables are compared for equality
by the foreign-key detector, so they live in one type. -/
inductive Val where
  | vint (n : Int)
  | vfloat (q : ℚ)
  | vbool (b : Bool)
  | vtime (n : Int)
  | vstr (s : String)
deriving DecidableEq, Repr

/-- A named column: storage dtype plus the cell values (`none` = null). -/
structure Column where
  name : String
  dtype : DType
  values : List (Option Val)
deriving DecidableEq, Repr

/-- A named table: ordered columns.  The row count is the length of each
column's value list. -/
structure Table where
  name : String
  cols : List Column
deriving DecidableEq, Repr

/-- `str(v)` for a cell value (used for the 5-sample metrics). -/
def valStr : Val → String
  | .vint n => toString n
  | .vfloat q => toString q
  | .vbool b => toString b
  | .vtime n => toString n
  | .vstr s => s

/-- `series.dropna().unique()` as a set: the distinct non-null values. -/
def distinctVals (c : Column) : List Val :=
  (c.values.filterMap id).dedup

/-- `series.dropna().nunique() / max(1, len(series))` (as an exact
rational, built with `mkRat`, which equals the division by
`Rat.mkRat_eq_div`). -/
def uniqueFrac (c : Column) : ℚ :=
  mkRat ((distinctVals c).length : Int) (max 1 c.values.length)

/-- `s.lower()` (ASCII case folding, which covers every name the code
compares). -/
def strToLower (s : String) : String :=
  String.mk (s.data.map Char.toLower)

/-- `s.endswith(suffix)`. -/
def strEndsWith (s suffix : String) : Bool :=
  List.isSuffixOf suffix.data s.data

/-- `s.startswith(pre)`. -/
def strStartsWith (s pre : String) : Bool :=
  List.isPrefixOf pre.data s.data

/-- Contiguous-sublist test on character lists. -/
def charsInfixOf (needle : List Char) : List Char → Bool
  | [] => needle.isEmpty
  | h :: t => List.isPrefixOf needle (h :: t) || charsInfixOf needle t

/-- Python's substring test `needle in hay`. -/
def strContainsSub (hay needle : String) : Bool :=
  charsInfixOf needle.data hay.data

/-- `analyzer.infer_column_type`: the dtype of the (dropna'd) series decides
the semantic type; anything that is not integer/float/bool/datetime falls
through to TEXT. -/
def infer_column_type (c : Column) : String :=
  match c.dtype with
  | .dint => "INTEGER"
  | .dfloat => "FLOAT"
  | .dbool => "BOOLEAN"
  | .ddatetime => "TIMESTAMP"
  | .dobject => "TEXT"

/-! ## Primary-key detection (`analyzer.detect_primary_keys`) -/

/-- Candidate rule (a): the lowercased name is `id` or ends with `_id`. -/
def condA (c : Column) : Bool :=
  (strToLower c.name = "id") || strEndsWith (strToLower c.name) "_id"

/-- Candidate rule (b): distinct fraction above 0.9 and not object dtype. -/
def condB (c : Column) : Bool :=
  decide (mkRat 9 10 < uniqueFrac c) && decide (c.dtype ≠ DType.dobject)

/-- The candidate entries one column contributes, in source order: the two
`if`s in the Python loop are independent, so a column satisfying both rules
is appended twice. -/
def colCandidates (c : Column) : List (String × ℚ) :=
  (if condA c then [(c.name, uniqueFrac c)] else []) ++
    (if condB c then [(c.name, uniqueFrac c)] else [])

/-- All PK candidates of a table, in column-declaration order. -/
def pkCandidates (t : Table) : List (String × ℚ) :=
  (t.cols.map colCandidates).flatten

/-- One step of a stable descending insertion sort on the fraction:
an element passes over strictly larger fractions only, so original order
is kept on ties (Python's `sort` is stable). -/
def insertDesc (c : String × ℚ) : List (String × ℚ) → List (String × ℚ)
  | [] => [c]
  | b :: bs => if c.2 < b.2 then b :: insertDesc c bs else c :: b :: bs

/-- Stable sort by fraction descending (`candidates.sort(key=lambda x: -x[1])`). -/
def sortDesc : List (String × ℚ) → List (String × ℚ)
  | [] => []
  | c :: cs => insertDesc c (sortDesc cs)

/-- `analyzer.detect_primary_keys`: per table, the top candidate after the
stable descending sort, or `none` when there is no candidate. -/
def detect_primary_keys (tables : List Table) : List (String × Option String) :=
  tables.map fun t =>
    (t.name,
      match sortDesc (pkCandidates t) with
      | [] => none
      | c :: _ => some c.1)

/-- `pks.get(t)` with Python's convention that a missing key and a stored
`None` are indistinguishable. -/
def pkOf (pks : List (String × Option String)) (t : String) : Option String :=
  match pks.lookup t with
  | some (some p) => some p
  | _ => none

/-! ## Foreign-key detection (`analyzer.detect_foreign_keys`) -/

/-- `tables[t]` (first table of that name). -/
def findTable (tables : List Table) (t : String) : Option Table :=
  tables.find? fun tb => tb.name == t

/-- The `pk_values` map: for each table whose PK is truthy and is one of its
columns, the distinct values of that PK column, in `pks` order. -/
def pkValues (tables : List Table) (pks : List (String × Option String)) :
    List (String × List Val) :=
  pks.filterMap fun tp =>
    match tp.2 with
    | none => none
    | some pk =>
      if pk = "" then none
      else
        match findTable tables tp.1 with
        | none => none
        | some tb =>
          match tb.cols.find? (fun c => c.name == pk) with
          | none => none
          | some c => some (tp.1, distinctVals c)

/-- `|vals ∩ refVals|` for the deduplicated value lists. -/
def commonCount (vals refVals : List Val) : ℕ :=
  (vals.filter fun v => decide (v ∈ refVals)).length

/-- The naming heuristic of the FK detector: the column name ends with
`_id`, or the referenced table's name occurs inside the column name, or the
column name equals the referenced PK name (all case-insensitively). -/
def fkHeuristic (colName refTable refPk : String) : Bool :=
  strEndsWith (strToLower colName) "_id" ||
    strContainsSub (strToLower colName) (strToLower refTable) ||
    (strToLower colName = strToLower refPk)

/-- The effective overlap threshold: `min_overlap`, replaced by the constant
0.5 whenever the naming heuristic fires. -/
def effThreshold (minOverlap : ℚ) (colName refTable refPk : String) : ℚ :=
  if fkHeuristic colName refTable refPk then mkRat 1 2 else minOverlap

/-- The inferred type of the referenced PK column (`None` when the lookup
fails, mirroring the `try/except`). -/
def refTypeOf (tables : List Table) (refTable refPk : String) : Option String :=
  match findTable tables refTable with
  | none => none
  | some tb =>
    match tb.cols.find? (fun rc => rc.name == refPk) with
    | none => none
    | some rc => some (infer_column_type rc)

/-- The type-compatibility check: both types known and equal, or both
numeric. -/
def typesCompatible (colType refType : Option String) : Bool :=
  match colType, refType with
  | some ct, some rt =>
      (ct = rt) || ((ct = "INTEGER" || ct = "FLOAT") && (rt = "INTEGER" || rt = "FLOAT"))
  | _, _ => false

/-- Whether one `pk_values` entry `rv` is accepted as the referenced table
for source column `c` of table `t`: the body of the inner loop of
`detect_foreign_keys`.  `int(0.05 * len(vals))` truncates a nonnegative
float, i.e. floors, hence the `Nat` division by 20. -/
def acceptRef (tables : List Table) (pks : List (String × Option String))
    (minOverlap : ℚ) (t : String) (c : Column) (rv : String × List Val) : Bool :=
  decide (rv.1 ≠ t) &&
    (match pkOf pks rv.1 with
     | none => false
     | some refPk =>
       decide (refPk ≠ "") &&
         (let vals := distinctVals c
          let common := commonCount vals rv.2
          decide (common ≠ 0) &&
            (let overlap : ℚ := mkRat (common : Int) (max 1 vals.length)
             let compat := typesCompatible (some (infer_column_type c)) (refTypeOf tables rv.1 refPk)
             let threshold := effThreshold minOverlap c.name rv.1 refPk
             let minCommon := max 2 (vals.length / 20)
             decide (threshold ≤ overlap) && decide (minCommon ≤ common) && compat)))

/-- The edge contributed by one source column: skip the table's own PK and
empty value sets, then take the first accepted referenced table (the `break`
in the source gives at most one outgoing edge per column). -/
def fkForColumn (tables : List Table) (pks : List (String × Option String))
    (minOverlap : ℚ) (pkVals : List (String × List Val)) (t : String) (c : Column) :
    Option ((String × String) × (String × String)) :=
  if pkOf pks t = some c.name then none
  else if (distinctVals c).isEmpty then none
  else
    match pkVals.find? (acceptRef tables pks minOverlap t c) with
    | none => none
    | some rv => (pkOf pks rv.1).map fun p => ((t, c.name), (rv.1, p))

/-- `analyzer.detect_foreign_keys`: the ordered edge list
`(table, col) ↦ (ref_table, ref_pk)`, scanning tables and columns in
declaration order. -/
def detect_foreign_keys (tables : List Table) (pks : List (String × Option String))
    (minOverlap : ℚ) : List ((String × String) × (String × String)) :=
  let pkVals := pkValues tables pks
  (tables.map fun tb => tb.cols.filterMap (fkForColumn tables pks minOverlap pkVals tb.name)).flatten

/-! ## Helper lemmas about the FK detector -/

theorem acceptRef_elim {tables : List Table} {pks : List (String × Option String)}
    {m : ℚ} {t : String} {c : Column} {rv : String × List Val}
    (h : acceptRef tables pks m t c rv = true) :
    rv.1 ≠ t ∧ ∃ refPk, pkOf pks rv.1 = some refPk ∧
      max 2 ((distinctVals c).length / 20) ≤ commonCount (distinctVals c) rv.2 := by
  cases hpk : pkOf pks rv.1 with
  | none =>
    unfold acceptRef at h
    rw [hpk] at h
    simp at h
  | some refPk =>
    unfold acceptRef at h
    rw [hpk] at h
    simp only [Bool.and_eq_true, decide_eq_true_eq] at h
    obtain ⟨h1, h2, h3, ⟨h4, h5⟩, h6⟩ := h
    exact ⟨h1, refPk, rfl, h5⟩

theorem acceptRef_pk_isSome {tables : List Table} {pks : List (String × Option String)}
    {m : ℚ} {t : String} {c : Column} {rv : String × List Val}
    (h : acceptRef tables pks m t c rv = true) : (pkOf pks rv.1).isSome := by
  obtain ⟨-, refPk, hpk, -⟩ := acceptRef_elim h
  rw [hpk]; rfl

theorem acceptRef_mono {tables : List Table} {pks : List (String × Option String)}
    {a b : ℚ} {t : String} {c : Column} {rv : String × List Val} (hab : a ≤ b)
    (h : acceptRef tables pks b t c rv = true) : acceptRef tables pks a t c rv = true := by
  cases hpk : pkOf pks rv.1 with
  | none =>
    unfold acceptRef at h
    rw [hpk] at h
    simp at h
  | some refPk =>
    unfold acceptRef at h ⊢
    rw [hpk] at h ⊢
    simp only [Bool.and_eq_true, decide_eq_true_eq] at h ⊢
    obtain ⟨h1, h2, h3, ⟨h4, h5⟩, h6⟩ := h
    have hth : effThreshold a c.name rv.1 refPk ≤ effThreshold b c.name rv.1 refPk := by
      unfold effThreshold
      split
      · exact le_refl _
      · exact hab
    exact ⟨h1, h2, h3, ⟨le_trans hth h4, h5⟩, h6⟩

theorem detect_fk_mem_elim {tables : List Table} {pks : List (String × Option String)}
    {m : ℚ} {e : (String × String) × (String × String)}
    (h : e ∈ detect_foreign_keys tables pks m) :
    ∃ tb ∈ tables, ∃ c ∈ tb.cols, ∃ rv ∈ pkValues tables pks, ∃ refPk,
      pkOf pks rv.1 = some refPk ∧ e = ((tb.name, c.name), (rv.1, refPk)) ∧
      acceptRef tables pks m tb.name c rv = true ∧
      pkOf pks tb.name ≠ some c.name := by
  unfold detect_foreign_keys at h
  rw [List.mem_flatten] at h
  obtain ⟨l, hl, hel⟩ := h
  rw [List.mem_map] at hl
  obtain ⟨tb, htb, rfl⟩ := hl
  rw [List.mem_filterMap] at hel
  obtain ⟨c, hc, hfc⟩ := hel
  unfold fkForColumn at hfc
  split at hfc
  · exact absurd hfc (by simp)
  · split at hfc
    · exact absurd hfc (by simp)
    · rename_i hself _
      revert hfc
      cases hfind : (pkValues tables pks).find? (acceptRef tables pks m tb.name c) with
      | none => intro hfc; simp at hfc
      | some rv =>
        intro hfc
        have hfc2 : Option.map (fun p => ((tb.name, c.name), (rv.1, p))) (pkOf pks rv.1) =
            some e := hfc
        rw [Option.map_eq_some'] at hfc2
        obtain ⟨refPk, hpk, heq⟩ := hfc2
        exact ⟨tb, htb, c, hc, rv, List.mem_of_find?_eq_some hfind, refPk, hpk, heq.symm,
          List.find?_some hfind, hself⟩

/-! ## C10: the naming heuristic pins the threshold at 0.5 -/

/-- **C10.**  Whenever the FK naming heuristic fires for a column, the
effective overlap threshold used by `detect_foreign_keys` is the constant
0.5, whatever `min_overlap` was passed; in particular a call with
`min_overlap < 0.5` has its threshold raised, not relaxed. -/
theorem fk_heuristic_fixes_threshold (m : ℚ) (colName refTable refPk : String)
    (h : fkHeuristic colName refTable refPk = true) :
    effThreshold m colName refTable refPk = 1/2 ∧
      (m < 1/2 → m < effThreshold m colName refTable refPk) := by
  have hmk : (mkRat 1 2 : ℚ) = 1/2 := by rw [Rat.mkRat_eq_div]; norm_num
  constructor
  · unfold effThreshold
    rw [if_pos h, hmk]
  · intro hm
    unfold effThreshold
    rw [if_pos h, hmk]
    exact hm

theorem fk_heuristic_fixes_threshold_witness :
    effThreshold (1/4) "customer_id" "customers" "customer_id" = 1/2 ∧
      ((1 : ℚ)/4 < 1/2 → (1 : ℚ)/4 < effThreshold (1/4) "customer_id" "customers" "customer_id") :=
  fk_heuristic_fixes_threshold (1/4) "customer_id" "customers" "customer_id" (by decide)

/-! ## C1: structural invariants of every emitted FK edge -/

/-- **C1.**  For every input table set and every FK edge produced by the
detector run on the detected primary keys: the edge's target column is the
target table's detected PK, the source table differs from the target table,
and the source column is not the source table's own detected PK. -/
theorem fk_edge_invariants (tables : List Table) (m : ℚ)
    (e : (String × String) × (String × String))
    (he : e ∈ detect_foreign_keys tables (detect_primary_keys tables) m) :
    pkOf (detect_primary_keys tables) e.2.1 = some e.2.2 ∧
      e.1.1 ≠ e.2.1 ∧
      pkOf (detect_primary_keys tables) e.1.1 ≠ some e.1.2 := by
  obtain ⟨tb, -, c, -, rv, -, refPk, hpk, rfl, hacc, hskip⟩ := detect_fk_mem_elim he
  have hne := (acceptRef_elim hacc).1
  exact ⟨hpk, fun hEq => hne hEq.symm, hskip⟩

/-- Scenario-A tables: `customers(customer_id, name)` with rows (1,A),(2,B)
and `orders(order_id, customer_id)` with rows (10,1),(11,2),(12,1). -/
def customersT : Table :=
  ⟨"customers", [⟨"customer_id", .dint, [some (.vint 1), some (.vint 2)]⟩,
                 ⟨"name", .dobject, [some (.vstr "A"), some (.vstr "B")]⟩]⟩

def ordersT : Table :=
  ⟨"orders", [⟨"order_id", .dint, [some (.vint 10), some (.vint 11), some (.vint 12)]⟩,
              ⟨"customer_id", .dint, [some (.vint 1), some (.vint 2), some (.vint 1)]⟩]⟩

def scnA : List Table := [customersT, ordersT]

/-! ## C2: the absolute-support floor -/

/-- **C2 (amended).**  Every edge the detector emits satisfies the
absolute-support condition with a floored 5% term:
`|V ∩ PKV| ≥ max(2, ⌊0.05·|V|⌋)`.  The source computes
`int(0.05 * len(vals))`, which truncates (floors) rather than taking the
ceiling the claim states. -/
theorem fk_absolute_support_floor (tables : List Table)
    (pks : List (String × Option String)) (m : ℚ)
    (e : (String × String) × (String × String))
    (he : e ∈ detect_foreign_keys tables pks m) :
    ∃ tb ∈ tables, ∃ c ∈ tb.cols, tb.name = e.1.1 ∧ c.name = e.1.2 ∧
      ∃ pv ∈ pkValues tables pks, pv.1 = e.2.1 ∧
        max 2 ((distinctVals c).length / 20) ≤ commonCount (distinctVals c) pv.2 := by
  obtain ⟨tb, htb, c, hc, rv, hrv, refPk, hpk, rfl, hacc, hskip⟩ := detect_fk_mem_elim he
  obtain ⟨-, refPk2, -, hsupp⟩ := acceptRef_elim hacc
  exact ⟨tb, htb, c, hc, rfl, rfl, rv, hrv, rfl, hsupp⟩

/-- Tables refuting the ceiling form of the absolute-support condition:
table `a` has PK `id` and a 41-valued column `x`; table `zz` has PK `id`
with values 1,2. -/
def c2valsX : List (Option Val) := (List.range 41).map fun n => some (.vint (n + 1))

def c2colX : Column := ⟨"x", .dint, c2valsX⟩

def c2zzId : Column := ⟨"id", .dint, [some (.vint 1), some (.vint 2)]⟩

def c2A : Table := ⟨"a", [⟨"id", .dint, c2valsX⟩, c2colX]⟩

def c2ZZ : Table := ⟨"zz", [c2zzId]⟩

def c2tables : List Table := [c2A, c2ZZ]

/-- **C2 counterexample.**  With `min_overlap = 1/50` the detector emits the
edge `a.x → zz.id`, whose source column has `|V| = 41` distinct values but
only `|V ∩ PKV| = 2` common ones — strictly below
`max(2, ⌈0.05·41⌉) = 3` (the ceiling of `0.05·n` over naturals is
`(n + 19) / 20`).  So the ceiling-based claim is false of the code. -/
theorem fk_absolute_support_ceil_counterexample :
    (("a", "x"), ("zz", "id")) ∈
        detect_foreign_keys c2tables (detect_primary_keys c2tables) (mkRat 1 50) ∧
      commonCount (distinctVals c2colX) (distinctVals c2zzId) <
        max 2 (((distinctVals c2colX).length + 19) / 20) := by
  decide

theorem fk_absolute_support_floor_witness :
    ∃ tb ∈ scnA, ∃ c ∈ tb.cols, tb.name = "orders" ∧ c.name = "customer_id" ∧
      ∃ pv ∈ pkValues scnA (detect_primary_keys scnA), pv.1 = "customers" ∧
        max 2 ((distinctVals c).length / 20) ≤ commonCount (distinctVals c) pv.2 :=
  fk_absolute_support_floor scnA (detect_primary_keys scnA) (mkRat 7 10)
    (("orders", "customer_id"), ("customers", "customer_id")) (by decide)

/-! ## C5: more overlap required, never more edges -/

theorem fkForColumn_isSome_mono {tables : List Table}
    {pks : List (String × Option String)} {pkVals : List (String × List Val)}
    {t : String} {c : Column} {a b : ℚ} (hab : a ≤ b)
    (h : (fkForColumn tables pks b pkVals t c).isSome = true) :
    (fkForColumn tables pks a pkVals t c).isSome = true := by
  unfold fkForColumn at h ⊢
  by_cases h1 : pkOf pks t = some c.name
  · rw [if_pos h1] at h
    simp at h
  · rw [if_neg h1] at h ⊢
    by_cases h2 : (distinctVals c).isEmpty = true
    · rw [if_pos h2] at h
      simp at h
    · rw [if_neg h2] at h ⊢
      revert h
      cases hfind : pkVals.find? (acceptRef tables pks b t c) with
      | none => intro h; simp at h
      | some rv =>
        intro h
        have hacca := acceptRef_mono hab (List.find?_some hfind)
        have hsome : (pkVals.find? (acceptRef tables pks a t c)).isSome := by
          rw [List.find?_isSome]
          exact ⟨rv, List.mem_of_find?_eq_some hfind, hacca⟩
        cases hfind2 : pkVals.find? (acceptRef tables pks a t c) with
        | none => rw [hfind2] at hsome; simp at hsome
        | some rv2 =>
          have hpk2 := acceptRef_pk_isSome (List.find?_some hfind2)
          simpa using hpk2

theorem filterMap_length_mono {α β : Type _} (f g : α → Option β) (l : List α)
    (h : ∀ x ∈ l, (f x).isSome = true → (g x).isSome = true) :
    (l.filterMap f).length ≤ (l.filterMap g).length := by
  induction l with
  | nil => simp
  | cons x xs ih =>
    have hxs : ∀ y ∈ xs, (f y).isSome = true → (g y).isSome = true :=
      fun y hy => h y (List.mem_cons_of_mem x hy)
    rw [List.filterMap_cons, List.filterMap_cons]
    cases hf : f x with
    | none =>
      cases hg : g x with
      | none => exact ih hxs
      | some b => exact le_trans (ih hxs) (by simp)
    | some b =>
      cases hg : g x with
      | none =>
        exfalso
        have hx := h x (List.mem_cons_self x xs)
        rw [hf, hg] at hx
        simp at hx
      | some b2 => simpa using ih hxs

theorem sum_map_le_sum_map {α : Type _} (l : List α) (f g : α → ℕ)
    (h : ∀ x ∈ l, f x ≤ g x) : (l.map f).sum ≤ (l.map g).sum := by
  induction l with
  | nil => simp
  | cons x xs ih =>
    simp only [List.map_cons, List.sum_cons]
    exact Nat.add_le_add (h x (List.mem_cons_self x xs))
      (ih fun y hy => h y (List.mem_cons_of_mem x hy))

/-- **C5.**  For a fixed table set and PK assignment, and thresholds
`a ≤ b`, the detector finds at most as many FK edges with `min_overlap = b`
as with `min_overlap = a`: raising the threshold never increases the edge
count. -/
theorem fk_count_monotone (tables : List Table) (pks : List (String × Option String))
    (a b : ℚ) (hab : a ≤ b) :
    (detect_foreign_keys tables pks b).length ≤ (detect_foreign_keys tables pks a).length := by
  unfold detect_foreign_keys
  rw [List.length_flatten, List.length_flatten, List.map_map, List.map_map]
  apply sum_map_le_sum_map
  intro tb htb
  simp only [Function.comp]
  apply filterMap_length_mono
  intro c hc
  exact fkForColumn_isSome_mono hab

theorem fk_count_monotone_witness :
    (detect_foreign_keys scnA (detect_primary_keys scnA) (mkRat 7 10)).length ≤
      (detect_foreign_keys scnA (detect_primary_keys scnA) (mkRat 1 2)).length :=
  fk_count_monotone scnA (detect_primary_keys scnA) (mkRat 1 2) (mkRat 7 10) (by decide)

theorem fk_edge_invariants_witness :
    pkOf (detect_primary_keys scnA) "customers" = some "customer_id" ∧
      "orders" ≠ "customers" ∧
      pkOf (detect_primary_keys scnA) "orders" ≠ some "customer_id" :=
  fk_edge_invariants scnA (7/10) (("orders", "customer_id"), ("customers", "customer_id"))
    (by decide)

/-! ## C6: the PK detector picks the first-declared most-distinct candidate -/

/-- The claim's selection rule, stated directly: the candidate with the
highest distinct fraction, ties broken in favor of the earlier (first
declared) entry; `none` on an empty candidate list. -/
def firstMax : List (String × ℚ) → Option (String × ℚ)
  | [] => none
  | c :: cs =>
    match firstMax cs with
    | none => some c
    | some b => if c.2 < b.2 then some b else some c

/-- Combine the winners of two candidate segments: the left winner is kept
unless the right one is strictly more distinct. -/
def combineMax : Option (String × ℚ) → Option (String × ℚ) → Option (String × ℚ)
  | none, y => y
  | some a, none => some a
  | some a, some b => if a.2 < b.2 then some b else some a

theorem combineMax_none_right (x : Option (String × ℚ)) : combineMax x none = x := by
  cases x <;> rfl

theorem combineMax_some_some (a b : String × ℚ) :
    combineMax (some a) (some b) = if a.2 < b.2 then some b else some a := rfl

theorem firstMax_cons (c : String × ℚ) (cs : List (String × ℚ)) :
    firstMax (c :: cs) = combineMax (some c) (firstMax cs) := by
  cases h : firstMax cs with
  | none => simp [firstMax, h, combineMax]
  | some b => simp [firstMax, h, combineMax]

theorem combineMax_assoc (x y z : Option (String × ℚ)) :
    combineMax (combineMax x y) z = combineMax x (combineMax y z) := by
  cases x with
  | none => rfl
  | some a =>
    cases y with
    | none => rfl
    | some b =>
      cases z with
      | none => simp [combineMax_none_right]
      | some d =>
        simp only [combineMax_some_some]
        split_ifs <;> simp only [combineMax_some_some] <;> split_ifs <;>
          first | rfl | (exfalso; linarith)

theorem head_insertDesc (c : String × ℚ) (l : List (String × ℚ)) :
    (insertDesc c l).head? = combineMax (some c) l.head? := by
  cases l with
  | nil => rfl
  | cons b bs =>
    simp only [insertDesc]
    split_ifs with h
    · simp [combineMax, h]
    · simp [combineMax, h]

theorem head_sortDesc (l : List (String × ℚ)) : (sortDesc l).head? = firstMax l := by
  induction l with
  | nil => rfl
  | cons c cs ih =>
    simp only [sortDesc]
    rw [head_insertDesc, ih, firstMax_cons]

theorem firstMax_append (l₁ l₂ : List (String × ℚ)) :
    firstMax (l₁ ++ l₂) = combineMax (firstMax l₁) (firstMax l₂) := by
  induction l₁ with
  | nil => simp [firstMax, combineMax]
  | cons a tl ih =>
    rw [List.cons_append, firstMax_cons, ih, firstMax_cons, combineMax_assoc]

/-- The claim's candidate set for one column: a single entry when rule (a)
or rule (b) applies, nothing otherwise (no double-count). -/
def specColCand (c : Column) : List (String × ℚ) :=
  if condA c || condB c then [(c.name, uniqueFrac c)] else []

/-- The claim's candidate set of a table: the columns satisfying rule (a)
or rule (b), in declaration order, with their distinct fractions. -/
def specCandidates (t : Table) : List (String × ℚ) :=
  (t.cols.filter fun c => condA c || condB c).map fun c => (c.name, uniqueFrac c)

/-- The claim's PK choice: the candidate with the highest distinct
fraction, first-declared on ties, `none` when there are no candidates
(hence at most one PK per table, by type). -/
def specPkChoice (t : Table) : Option String :=
  Option.map Prod.fst (firstMax (specCandidates t))

theorem firstMax_colCandidates (c : Column) :
    firstMax (colCandidates c) = firstMax (specColCand c) := by
  unfold colCandidates specColCand
  by_cases ha : condA c <;> by_cases hb : condB c <;>
    simp [ha, hb, firstMax, combineMax, lt_irrefl]

theorem specCandidates_eq_flatten (t : Table) :
    specCandidates t = (t.cols.map specColCand).flatten := by
  unfold specCandidates
  induction t.cols with
  | nil => rfl
  | cons c cs ih =>
    by_cases hc : condA c || condB c
    · simp [List.filter_cons, hc, specColCand, ih]
    · simp [List.filter_cons, hc, specColCand, ih]

theorem firstMax_flatten_congr (f g : Column → List (String × ℚ)) (l : List Column)
    (h : ∀ c ∈ l, firstMax (f c) = firstMax (g c)) :
    firstMax ((l.map f).flatten) = firstMax ((l.map g).flatten) := by
  induction l with
  | nil => rfl
  | cons c cs ih =>
    simp only [List.map_cons, List.flatten_cons]
    rw [firstMax_append, firstMax_append, h c (List.mem_cons_self c cs),
      ih fun y hy => h y (List.mem_cons_of_mem c hy)]

/-- **C6.**  The PK detector computes exactly the claim's rule: per table,
among the candidates — (a) columns named `id`/`*_id` unconditionally, and
(b) non-text-like columns with distinct fraction above 0.9 — the one with
the highest distinct fraction wins, first-declared on ties; with no
candidates the table's PK is `none`; the `Option` result makes "at most one
PK per table" structural. -/
theorem detect_pk_refines_spec (tables : List Table) :
    detect_primary_keys tables = tables.map fun t => (t.name, specPkChoice t) := by
  unfold detect_primary_keys
  apply List.map_congr_left
  intro t ht
  have h1 : (sortDesc (pkCandidates t)).head? = firstMax (specCandidates t) := by
    rw [head_sortDesc]
    unfold pkCandidates
    rw [specCandidates_eq_flatten]
    exact firstMax_flatten_congr _ _ _ fun c _ => firstMax_colCandidates c
  unfold specPkChoice
  rw [← h1]
  cases sortDesc (pkCandidates t) <;> rfl

/-! ## Column metrics and tier classification (`layers.py`) -/

/-- The analyzer output consumed by downstream stages (`analysis['pks']`,
`analysis['fks']`, `analysis['types']`; descriptions are never read by the
embedded stages). -/
structure Analysis where
  pks : List (String × Option String)
  fks : List ((String × String) × (String × String))
  types : List (String × List (String × String))
deriving DecidableEq, Repr

/-- `str(series.dtype)` for each storage kind. -/
def dtypeStr : DType → String
  | .dint => "int64"
  | .dfloat => "float64"
  | .dbool => "bool"
  | .ddatetime => "datetime64[ns]"
  | .dobject => "object"

/-- Per-column metrics of `layers.compute_metrics`: null fraction
(`none` encodes the NaN mean of an empty column), distinct fraction,
dtype, and up to 5 stringified non-null samples. -/
structure ColMetrics where
  null_pct : Option ℚ
  unique_frac : ℚ
  dtype : DType
  sample : List String
deriving Repr

def compute_metrics_col (c : Column) : ColMetrics :=
  { null_pct :=
      if c.values.length = 0 then none
      else some (mkRat (c.values.countP fun v => v.isNone) c.values.length)
  , unique_frac := uniqueFrac c
  , dtype := c.dtype
  , sample := ((c.values.filterMap id).map valStr).take 5 }

/-- `m["null_pct"] < 0.5`, false for the NaN of an empty column. -/
def nullPctLtHalf (m : ColMetrics) : Bool :=
  match m.null_pct with
  | some q => decide (q < mkRat 1 2)
  | none => false

/-- The rule chain of `layers.classify_columns` for one column: returns the
`(layer, reason)` pair.  The substring tests on `str(dtype)` are computed
literally (e.g. `'int' in 'int64'`). -/
def classifyOne (analysis : Analysis) (t : String) (c : Column) : String × String :=
  let m := compute_metrics_col c
  let ds := dtypeStr m.dtype
  if strStartsWith ds "object" && decide (m.unique_frac < mkRat 1 50) &&
      m.sample.any (fun x => decide (200 < x.length)) then
    ("bronze", "long_text_blob -> keep bronze")
  else if pkOf analysis.pks t = some c.name then
    ("silver", "primary key -> silver (conformed)")
  else if decide ((t, c.name) ∈ analysis.fks.map Prod.fst) then
    ("silver", "foreign key -> silver (joinable)")
  else if nullPctLtHalf m &&
      ["int", "float", "bool", "datetime", "object"].any (fun x => strContainsSub ds x) then
    if (["int", "float"].any fun x => strContainsSub ds x) &&
        decide (m.unique_frac < mkRat 1 5) then
      ("gold", "numeric measure -> gold")
    else
      ("silver", "cleanable -> silver")
  else
    ("bronze", "default: keep bronze")

/-- `layers.classify_columns` (metrics computed fresh, as in the default
call): table name ↦ column name ↦ (layer, reason). -/
def classify_columns (tables : List Table) (analysis : Analysis) :
    List (String × List (String × String × String)) :=
  tables.map fun tb => (tb.name, tb.cols.map fun c => (c.name, classifyOne analysis tb.name c))

theorem classifyOne_layer (analysis : Analysis) (t : String) (c : Column) :
    ((classifyOne analysis t c).1 = "bronze" ∨ (classifyOne analysis t c).1 = "silver" ∨
      (classifyOne analysis t c).1 = "gold") ∧ (classifyOne analysis t c).2 ≠ "" := by
  unfold classifyOne
  split_ifs <;> try simp
  all_goals split_ifs <;> simp

/-- **C7.**  Tier classification is total and mutually exclusive: the result
has one bundle per table (same keys, same order), each bundle has exactly
one entry per column of that table (same keys, same order — hence exactly
one tier per column), and every entry carries a layer from
bronze/silver/gold together with a nonempty reason string. -/
theorem tier_classification_total (tables : List Table) (analysis : Analysis) :
    ((classify_columns tables analysis).map Prod.fst = tables.map Table.name) ∧
      ∀ tb ∈ tables,
        ∃ entry ∈ classify_columns tables analysis,
          entry.1 = tb.name ∧
          entry.2.map Prod.fst = tb.cols.map Column.name ∧
          ∀ e ∈ entry.2,
            (e.2.1 = "bronze" ∨ e.2.1 = "silver" ∨ e.2.1 = "gold") ∧ e.2.2 ≠ "" := by
  constructor
  · unfold classify_columns
    rw [List.map_map]
    rfl
  · intro tb htb
    refine ⟨(tb.name, tb.cols.map fun c => (c.name, classifyOne analysis tb.name c)),
      List.mem_map_of_mem _ htb, rfl, ?_, ?_⟩
    · rw [List.map_map]
      rfl
    · intro e he
      rw [List.mem_map] at he
      obtain ⟨c, hc, rfl⟩ := he
      exact classifyOne_layer analysis tb.name c

/-- The analysis of the scenario-A tables, as `analyze` builds it (types
are unread by classification). -/
def scnAAnalysis : Analysis :=
  ⟨detect_primary_keys scnA, detect_foreign_keys scnA (detect_primary_keys scnA) (mkRat 7 10), []⟩

theorem tier_classification_total_witness :
    ∃ entry ∈ classify_columns scnA scnAAnalysis,
      entry.1 = ordersT.name ∧
      entry.2.map Prod.fst = ordersT.cols.map Column.name ∧
      ∀ e ∈ entry.2,
        (e.2.1 = "bronze" ∨ e.2.1 = "silver" ∨ e.2.1 = "gold") ∧ e.2.2 ≠ "" :=
  (tier_classification_total scnA scnAAnalysis).2 ordersT (by decide)

/-! ## DDL generation (`sql_generator.py`) -/

/-- One emitted DDL statement.  Each constructor records exactly the data
interpolated into the corresponding statement string (see `renderStmt`);
`tname` is the table key of the batch the statement was generated for. -/
inductive Stmt where
  | createSchema (schema : String)
  | dropTable (tname ident : String)
  | createTable (tname ident : String) (colDefs : List String) (ifNotExists : Bool)
  | alterFK (srcIdent col refIdent refCol : String)
deriving DecidableEq, Repr

/-- The exact statement text the source writes. -/
def renderStmt : Stmt → String
  | .createSchema s => "CREATE SCHEMA IF NOT EXISTS " ++ s ++ ";"
  | .dropTable _ ident => "DROP TABLE IF EXISTS " ++ ident ++ ";"
  | .createTable _ ident cols ine =>
      (if ine then "CREATE TABLE IF NOT EXISTS " else "CREATE TABLE ") ++ ident ++
        " (\n" ++ String.intercalate ",\n" cols ++ "\n);"
  | .alterFK src col ref refCol =>
      "ALTER TABLE " ++ src ++ " ADD FOREIGN KEY (\"" ++ col ++ "\") REFERENCES " ++
        ref ++ " (\"" ++ refCol ++ "\");"

def SQL_TYPE_MAP : List (String × String) :=
  [("INTEGER", "INTEGER"), ("FLOAT", "FLOAT"), ("BOOLEAN", "BOOLEAN"),
   ("TIMESTAMP", "TIMESTAMP"), ("TEXT", "TEXT")]

def pandas_type_to_sql (dtype : String) : String :=
  (SQL_TYPE_MAP.lookup dtype).getD "TEXT"

/-- `m and k in m`, then `m[k]`: a lookup that is `none` when the optional
dict is absent, empty (falsy), or lacks the key. -/
def lookupMap (m : Option (List (String × String))) (k : String) : Option String :=
  match m with
  | some l => if l.isEmpty then none else l.lookup k
  | none => none

/-- `sql_generator.qname`: the per-table override (when the map is truthy
and has the key) replaces the passed schema; a falsy schema leaves the name
unqualified. -/
def qname (tsm : Option (List (String × String))) (name : String)
    (schema : Option String) : String :=
  let schema2 :=
    match lookupMap tsm name with
    | some s => some s
    | none => schema
  match schema2 with
  | some s => if s = "" then "\"" ++ name ++ "\"" else s ++ ".\"" ++ name ++ "\""
  | none => "\"" ++ name ++ "\""

/-- The referenced-table identifier of an FK ALTER statement: in-batch →
`qname` with the batch schema; else per-table override; else a truthy
`ref_layer_name` that maps through a truthy `layer_schema_map`; else `none`
(the statement is skipped). -/
def fkRefIdent (selected : List String) (schema_name ref_layer_name : Option String)
    (lsm tsm : Option (List (String × String))) (ref_tbl : String) : Option String :=
  if ref_tbl ∈ selected then some (qname tsm ref_tbl schema_name)
  else
    match lookupMap tsm ref_tbl with
    | some ov => some (qname tsm ref_tbl (some ov))
    | none =>
      match ref_layer_name with
      | some rln =>
        if rln = "" then none
        else
          match lookupMap lsm rln with
          | some sc => some (qname tsm ref_tbl (some sc))
          | none => none
      | none => none

/-- `types.get(t, {}).get(col, 'TEXT')` without the default. -/
def lookupType (types : List (String × List (String × String))) (t col : String) :
    Option String :=
  (types.lookup t).bind fun m => m.lookup col

/-- The statements of one selected table: optional DROP then CREATE with
one column line per column, PK marker inline. -/
def tableStmts (tables : List Table) (analysis : Analysis)
    (drop_if_exists if_not_exists : Bool) (schema_name : Option String)
    (tsm : Option (List (String × String))) (t : String) : List Stmt :=
  match findTable tables t with
  | none => []
  | some df =>
    let cols := df.cols.map fun c =>
      let dtype := (lookupType analysis.types t c.name).getD "TEXT"
      let sqlType := pandas_type_to_sql dtype
      let colDef := "    \"" ++ c.name ++ "\" " ++ sqlType
      if pkOf analysis.pks t = some c.name then colDef ++ " PRIMARY KEY" else colDef
    let ident := qname tsm t schema_name
    (if drop_if_exists then [Stmt.dropTable t ident] else []) ++
      [Stmt.createTable t ident cols if_not_exists]

/-- `sql_generator.generate_create_statements`, as the ordered statement
list (the source joins the rendered strings with blank lines, see
`generate_create_statements`): optional CREATE SCHEMA header, then the
selected tables in order, then one FK ALTER per edge whose source is
selected and whose target resolves. -/
def generate_create_stmts (tables : List Table) (analysis : Analysis)
    (table_names : Option (List String)) (drop_if_exists if_not_exists : Bool)
    (schema_name ref_layer_name : Option String)
    (lsm tsm : Option (List (String × String))) : List Stmt :=
  let selected := match table_names with
    | some l => l
    | none => tables.map Table.name
  let header : List Stmt := match schema_name with
    | some s => if s = "" then [] else [Stmt.createSchema s]
    | none => []
  let fkStmts : List Stmt := analysis.fks.filterMap fun e =>
    if e.1.1 ∉ selected then none
    else
      (fkRefIdent selected schema_name ref_layer_name lsm tsm e.2.1).map fun refIdent =>
        Stmt.alterFK (qname tsm e.1.1 schema_name) e.1.2 refIdent e.2.2
  header ++
    (selected.map (tableStmts tables analysis drop_if_exists if_not_exists schema_name tsm)).flatten ++
    fkStmts

/-- The text artifact the source returns. -/
def generate_create_statements (tables : List Table) (analysis : Analysis)
    (table_names : Option (List String)) (drop_if_exists if_not_exists : Bool)
    (schema_name ref_layer_name : Option String)
    (lsm tsm : Option (List (String × String))) : String :=
  String.intercalate "\n\n"
    ((generate_create_stmts tables analysis table_names drop_if_exists if_not_exists
        schema_name ref_layer_name lsm tsm).map renderStmt)

/-! ## C4: an empty selection still emits the schema header -/

theorem filterMap_skip_all {α β : Type _} (l : List α) (f : α → Option β)
    (h : ∀ x ∈ l, f x = none) : l.filterMap f = [] := by
  induction l with
  | nil => rfl
  | cons x xs ih =>
    rw [List.filterMap_cons, h x (List.mem_cons_self x xs)]
    exact ih fun y hy => h y (List.mem_cons_of_mem x hy)

/-- **C4 (amended).**  A call with an empty selected-table list emits no
table and no FK statements; the batch is exactly the optional schema
header — empty when `schema_name` is unset or empty (falsy), and the single
`CREATE SCHEMA IF NOT EXISTS` statement when `schema_name` is set. -/
theorem empty_selection_batch (tables : List Table) (analysis : Analysis)
    (d i : Bool) (sn rl : Option String) (lsm tsm : Option (List (String × String))) :
    generate_create_stmts tables analysis (some []) d i sn rl lsm tsm =
      (match sn with
       | some s => if s = "" then [] else [Stmt.createSchema s]
       | none => []) := by
  unfold generate_create_stmts
  simp only [List.map_nil, List.flatten_nil, List.append_nil, List.nil_append,
    List.not_mem_nil, not_false_iff, if_true, ite_true]
  rw [filterMap_skip_all]
  · simp
  · intro e he
    rfl

/-- **C4 counterexample.**  With an empty selected-table list and
`schema_name = "s"`, the generated batch holds one statement (the
`CREATE SCHEMA`), so the claim that every such batch has zero statements,
regardless of `schema_name`, is false. -/
theorem empty_selection_counterexample :
    generate_create_stmts [] ⟨[], [], []⟩ (some []) false false (some "s") none none none =
      [Stmt.createSchema "s"] := by
  rfl

/-! ## C3: FK target identifier resolution -/

/-- **C3 (amended).**  The target identifier of an FK ALTER statement is
resolved as: (a) target in the selected batch → `qname` with the batch
schema, where a per-table override, when present and nonempty, supersedes
the batch `schema_name` even for in-batch targets; (b) otherwise a
per-table override is used; (c) otherwise a truthy `reference_tier` that
maps through a truthy tier-to-schema map qualifies the target; (d)
otherwise the statement is omitted (the identifier is `none`). -/
theorem fk_target_resolution (selected : List String) (sn rl : Option String)
    (lsm tsm : Option (List (String × String))) (ref : String) :
    (∀ ov, ref ∈ selected → lookupMap tsm ref = some ov → ov ≠ "" →
      fkRefIdent selected sn rl lsm tsm ref = some (ov ++ ".\"" ++ ref ++ "\"")) ∧
    (∀ s, ref ∈ selected → lookupMap tsm ref = none → sn = some s → s ≠ "" →
      fkRefIdent selected sn rl lsm tsm ref = some (s ++ ".\"" ++ ref ++ "\"")) ∧
    (∀ ov, ref ∉ selected → lookupMap tsm ref = some ov → ov ≠ "" →
      fkRefIdent selected sn rl lsm tsm ref = some (ov ++ ".\"" ++ ref ++ "\"")) ∧
    (∀ rln sc, ref ∉ selected → lookupMap tsm ref = none → rl = some rln → rln ≠ "" →
      lookupMap lsm rln = some sc → sc ≠ "" →
      fkRefIdent selected sn rl lsm tsm ref = some (sc ++ ".\"" ++ ref ++ "\"")) ∧
    (ref ∉ selected → lookupMap tsm ref = none →
      (∀ rln, rl = some rln → rln ≠ "" → lookupMap lsm rln = none) →
      fkRefIdent selected sn rl lsm tsm ref = none) := by
  refine ⟨?_, ?_, ?_, ?_, ?_⟩
  · intro ov hmem hov hne
    unfold fkRefIdent qname
    rw [if_pos hmem, hov]
    simp [hne]
  · intro s hmem hov hsn hne
    unfold fkRefIdent qname
    rw [if_pos hmem, hov, hsn]
    simp [hne]
  · intro ov hmem hov hne
    unfold fkRefIdent qname
    rw [if_neg hmem, hov]
    simp [hne]
  · intro rln sc hmem hov hrl hrlne hsc hscne
    unfold fkRefIdent qname
    rw [if_neg hmem, hov, hrl]
    simp [hrlne, hsc, hscne]
  · intro hmem hov hnone
    unfold fkRefIdent
    rw [if_neg hmem, hov]
    cases hrl : rl with
    | none => simp
    | some rln =>
      by_cases hrlne : rln = ""
      · simp [hrlne]
      · simp [hrlne, hnone rln hrl hrlne]

theorem fk_target_resolution_witness :
    fkRefIdent ["t2"] (some "batch") none none (some [("t2", "ov")]) "t2" =
      some ("ov" ++ ".\"" ++ "t2" ++ "\"") :=
  (fk_target_resolution ["t2"] (some "batch") none none (some [("t2", "ov")]) "t2").1
    "ov" (by decide) (by decide) (by decide)

/-- Tables and analysis refuting the claim's case (a): `t1.c → t2.p`, both
tables selected, batch schema `batch`, and a per-table override mapping
`t2` to schema `ov`. -/
def c3t1 : Table := ⟨"t1", [⟨"c", .dint, [some (.vint 1)]⟩]⟩

def c3t2 : Table := ⟨"t2", [⟨"p", .dint, [some (.vint 1)]⟩]⟩

def c3analysis : Analysis :=
  ⟨[("t1", none), ("t2", some "p")], [(("t1", "c"), ("t2", "p"))],
   [("t1", [("c", "INTEGER")]), ("t2", [("p", "INTEGER")])]⟩

/-- **C3 counterexample.**  The target `t2` is in the selected batch, yet
the emitted ALTER references `ov."t2"` (the per-table override), not the
batch-schema identifier `batch."t2"` the claim's case (a) requires. -/
theorem fk_target_resolution_counterexample :
    generate_create_stmts [c3t1, c3t2] c3analysis (some ["t1", "t2"]) false false
        (some "batch") none none (some [("t2", "ov")]) =
      [Stmt.createSchema "batch",
       Stmt.createTable "t1" "batch.\"t1\"" ["    \"c\" INTEGER"] false,
       Stmt.createTable "t2" "ov.\"t2\"" ["    \"p\" INTEGER PRIMARY KEY"] false,
       Stmt.alterFK "batch.\"t1\"" "c" "ov.\"t2\"" "p"] ∧
      ("ov.\"t2\"" : String) ≠ "batch.\"t2\"" := by
  exact ⟨by decide, by decide⟩

/-! ## Silver materialization (`layers.materialize_silver`) -/

/-- The `cleaned` entry one table contributes: look the table up in the
classification, keep the names of its silver-tier columns, select those
columns from the frame, and drop the table when no column is silver. -/
def silverEntry (classified : List (String × List (String × String × String)))
    (tb : Table) : Option Table :=
  let entry := (classified.lookup tb.name).getD []
  let colNames := (entry.filter fun e => decide (e.2.1 = "silver")).map Prod.fst
  let cols := colNames.filterMap fun cn => tb.cols.find? fun c => c.name == cn
  if colNames.isEmpty then none else some ⟨tb.name, cols⟩

/-- The `cleaned` table set of `materialize_silver`. -/
def silverTables (tables : List Table) (analysis : Analysis) : List Table :=
  tables.filterMap (silverEntry (classify_columns tables analysis))

/-- `layers.materialize_silver`, modelled as the DDL batch it writes to
`silver/schema.sql` (`none` when the early return on an empty cleaned set
fires and nothing is written).  The in-memory cleaning pass of the source
is computed on copies and never feeds the generated DDL, so it does not
appear here. -/
def materialize_silver (tables : List Table) (analysis : Analysis)
    (layer_schema_map : Option (List (String × String))) : Option (List Stmt) :=
  let cleaned := silverTables tables analysis
  let lsm := match layer_schema_map with
    | some m => m
    | none => [("bronze", "bronze"), ("silver", "silver"), ("gold", "gold")]
  let schema_name := lsm.lookup "silver"
  if cleaned.isEmpty then none
  else
    some (generate_create_stmts cleaned analysis (some (cleaned.map Table.name)) true true
      schema_name (some "bronze") (some lsm) none)

/-- The silver-classified columns of a table, in declaration order. -/
def silverColsOf (analysis : Analysis) (tb : Table) : List Column :=
  tb.cols.filter fun c => decide ((classifyOne analysis tb.name c).1 = "silver")

/-! ### Lookup and recovery lemmas -/

theorem lookup_map_of_nodup {β : Type _} (tables : List Table) (f : Table → β)
    (hnd : (tables.map Table.name).Nodup) (tb : Table) (htb : tb ∈ tables) :
    (tables.map fun t => (t.name, f t)).lookup tb.name = some (f tb) := by
  induction tables with
  | nil => cases htb
  | cons t ts ih =>
    rw [List.map_cons, List.nodup_cons] at hnd
    rcases List.mem_cons.mp htb with rfl | hmem
    · simp [List.lookup]
    · have hne : (tb.name == t.name) = false := by
        rw [beq_eq_false_iff_ne]
        intro h
        exact hnd.1 (h ▸ List.mem_map_of_mem Table.name hmem)
      rw [List.map_cons, List.lookup_cons, hne]
      exact ih hnd.2 hmem

theorem find?_name_of_nodup (cols : List Column) (hnd : (cols.map Column.name).Nodup)
    (c : Column) (hc : c ∈ cols) : cols.find? (fun x => x.name == c.name) = some c := by
  induction cols with
  | nil => cases hc
  | cons d ds ih =>
    rw [List.map_cons, List.nodup_cons] at hnd
    rcases List.mem_cons.mp hc with rfl | hmem
    · simp [List.find?]
    · have hne : (d.name == c.name) = false := by
        rw [beq_eq_false_iff_ne]
        intro h
        apply hnd.1
        rw [h]
        exact List.mem_map_of_mem Column.name hmem
      rw [List.find?_cons, hne]
      exact ih hnd.2 hmem

theorem filterMap_map_name (g : String → Option Column) (l : List Column)
    (h : ∀ c ∈ l, g c.name = some c) :
    (l.map Column.name).filterMap g = l := by
  induction l with
  | nil => rfl
  | cons c cs ih =>
    rw [List.map_cons, List.filterMap_cons, h c (List.mem_cons_self c cs),
      ih fun y hy => h y (List.mem_cons_of_mem c hy)]

theorem eq_of_name_eq_of_nodup (tables : List Table)
    (hnd : (tables.map Table.name).Nodup) {a b : Table} (ha : a ∈ tables)
    (hb : b ∈ tables) (hname : a.name = b.name) : a = b := by
  induction tables with
  | nil => cases ha
  | cons t ts ih =>
    rw [List.map_cons, List.nodup_cons] at hnd
    rcases List.mem_cons.mp ha with rfl | ha2
    · rcases List.mem_cons.mp hb with rfl | hb2
      · rfl
      · exact absurd (by rw [hname]; exact List.mem_map_of_mem Table.name hb2) hnd.1
    · rcases List.mem_cons.mp hb with rfl | hb2
      · exact absurd (by rw [← hname]; exact List.mem_map_of_mem Table.name ha2) hnd.1
      · exact ih hnd.2 ha2 hb2

/-- Characterization of one table's `cleaned` entry under unique table and
column names: it keeps exactly the silver-classified columns, and disappears
when there are none. -/
theorem silverEntry_eq (tables : List Table) (analysis : Analysis)
    (hnd : (tables.map Table.name).Nodup) (tb : Table) (htb : tb ∈ tables)
    (hcols : (tb.cols.map Column.name).Nodup) :
    silverEntry (classify_columns tables analysis) tb =
      if silverColsOf analysis tb = [] then none
      else some ⟨tb.name, silverColsOf analysis tb⟩ := by
  have hclass : (classify_columns tables analysis).lookup tb.name =
      some (tb.cols.map fun c => (c.name, classifyOne analysis tb.name c)) :=
    lookup_map_of_nodup tables _ hnd tb htb
  unfold silverEntry
  rw [hclass]
  simp only [Option.getD_some]
  rw [List.filter_map, List.map_map]
  have hnames : (List.map (Prod.fst ∘ fun c => (c.name, classifyOne analysis tb.name c))
      (tb.cols.filter ((fun e => decide (e.2.1 = "silver")) ∘
        fun c => (c.name, classifyOne analysis tb.name c)))) =
      (silverColsOf analysis tb).map Column.name := by
    rfl
  rw [hnames]
  have hrecover : ((silverColsOf analysis tb).map Column.name).filterMap
      (fun cn => tb.cols.find? fun c => c.name == cn) = silverColsOf analysis tb := by
    apply filterMap_map_name
    intro c hcmem
    exact find?_name_of_nodup tb.cols hcols c (List.mem_of_mem_filter hcmem)
  rw [hrecover]
  by_cases hempty : silverColsOf analysis tb = []
  · rw [if_pos hempty, if_pos]
    rw [hempty]
    rfl
  · rw [if_neg hempty, if_neg]
    intro hmap
    exact hempty (List.map_eq_nil_iff.mp (List.isEmpty_iff.mp hmap))

theorem silverEntry_name (classified : List (String × List (String × String × String)))
    (tb : Table) (x : Table) (h : silverEntry classified tb = some x) :
    x.name = tb.name := by
  simp only [silverEntry] at h
  split at h
  · exact absurd h (by simp)
  · rw [Option.some.injEq] at h
    rw [← h]

/-- Any successfully produced silver batch is the generator's output over
the cleaned tables, selected by exactly their names. -/
theorem materialize_silver_eq_some (tables : List Table) (analysis : Analysis)
    (lsm : Option (List (String × String))) (stmts : List Stmt)
    (h : materialize_silver tables analysis lsm = some stmts) :
    ∃ sn lsm2, stmts = generate_create_stmts (silverTables tables analysis) analysis
      (some ((silverTables tables analysis).map Table.name)) true true sn (some "bronze")
      (some lsm2) none := by
  simp only [materialize_silver] at h
  by_cases hemp : (silverTables tables analysis).isEmpty = true
  · rw [if_pos hemp] at h
    exact absurd h (by simp)
  · rw [if_neg hemp] at h
    rw [Option.some.injEq] at h
    exact ⟨_, _, h.symm⟩

theorem createTable_mem_selected (tables : List Table) (analysis : Analysis)
    (sel : List String) (d i : Bool) (sn rl : Option String)
    (lsm tsm : Option (List (String × String))) (n ident : String)
    (cols : List String) (ine : Bool)
    (h : Stmt.createTable n ident cols ine ∈
      generate_create_stmts tables analysis (some sel) d i sn rl lsm tsm) :
    n ∈ sel := by
  unfold generate_create_stmts at h
  rw [List.append_assoc, List.mem_append, List.mem_append] at h
  rcases h with h | h | h
  · cases sn with
    | none => simp at h
    | some s =>
      by_cases hs : s = "" <;> simp [hs] at h
  · rw [List.mem_flatten] at h
    obtain ⟨l, hl, hsl⟩ := h
    rw [List.mem_map] at hl
    obtain ⟨t, htsel, rfl⟩ := hl
    unfold tableStmts at hsl
    revert hsl
    cases findTable tables t with
    | none => intro hsl; simp at hsl
    | some df =>
      intro hsl
      rw [List.mem_append] at hsl
      rcases hsl with hsl | hsl
      · cases d <;> simp at hsl
      · rw [List.mem_singleton, Stmt.createTable.injEq] at hsl
        rw [hsl.1]
        exact htsel
  · rw [List.mem_filterMap] at h
    obtain ⟨e, he, hfe⟩ := h
    by_cases hm : e.1.1 ∉ sel
    · rw [if_pos hm] at hfe
      exact absurd hfe (by simp)
    · rw [if_neg hm] at hfe
      rw [Option.map_eq_some'] at hfe
      obtain ⟨ri, -, hri⟩ := hfe
      exact absurd hri (by simp)

/-- **C8.**  Silver materialization keeps, per table, exactly the columns
classified silver (first conjunct), and a table with zero silver columns is
absent from the silver DDL batch entirely: its name is not among the
generated tables and no `CREATE TABLE` statement for it appears in the
batch (second conjunct). -/
theorem silver_batch (tables : List Table) (analysis : Analysis)
    (lsm : Option (List (String × String)))
    (hnd : (tables.map Table.name).Nodup) (tb : Table) (htb : tb ∈ tables)
    (hcols : (tb.cols.map Column.name).Nodup) :
    (silverColsOf analysis tb ≠ [] →
      Table.mk tb.name (silverColsOf analysis tb) ∈ silverTables tables analysis) ∧
    (silverColsOf analysis tb = [] →
      tb.name ∉ (silverTables tables analysis).map Table.name ∧
      ∀ stmts, materialize_silver tables analysis lsm = some stmts →
        ∀ s ∈ stmts, ∀ ident cols ine, s ≠ Stmt.createTable tb.name ident cols ine) := by
  have hentry := silverEntry_eq tables analysis hnd tb htb hcols
  constructor
  · intro hne
    rw [if_neg hne] at hentry
    exact List.mem_filterMap.mpr ⟨tb, htb, hentry⟩
  · intro hempty
    rw [if_pos hempty] at hentry
    have hnotmem : tb.name ∉ (silverTables tables analysis).map Table.name := by
      intro hmem
      rw [List.mem_map] at hmem
      obtain ⟨x, hx, hxname⟩ := hmem
      unfold silverTables at hx
      rw [List.mem_filterMap] at hx
      obtain ⟨tb2, htb2, hse⟩ := hx
      have hname2 : tb2.name = tb.name := by
        rw [← silverEntry_name _ tb2 x hse, hxname]
      have heq : tb2 = tb := eq_of_name_eq_of_nodup tables hnd htb2 htb hname2
      rw [heq, hentry] at hse
      exact absurd hse (by simp)
    refine ⟨hnotmem, ?_⟩
    intro stmts hms s hs ident cols ine hcontra
    obtain ⟨sn, lsm2, rfl⟩ := materialize_silver_eq_some tables analysis lsm stmts hms
    rw [hcontra] at hs
    exact hnotmem (createTable_mem_selected _ _ _ _ _ _ _ _ _ _ _ _ _ hs)

/-- Witness tables for C8: `good(gid)` has a silver column (its PK);
`b1(junk)` has a single half-null column that classifies bronze, so `b1`
must be absent from the silver batch. -/
def w8junk : Column := ⟨"junk", .dobject, [none, some (.vstr "x")]⟩

def w8b1 : Table := ⟨"b1", [w8junk]⟩

def w8good : Table := ⟨"good", [⟨"gid", .dint, [some (.vint 1)]⟩]⟩

def w8tables : List Table := [w8good, w8b1]

def w8analysis : Analysis :=
  ⟨[("good", some "gid"), ("b1", none)], [], [("good", [("gid", "INTEGER")])]⟩

def w8stmts : List Stmt :=
  [Stmt.createSchema "silver",
   Stmt.dropTable "good" "silver.\"good\"",
   Stmt.createTable "good" "silver.\"good\"" ["    \"gid\" INTEGER PRIMARY KEY"] true]

theorem silver_batch_witness :
    Stmt.createSchema "silver" ≠ Stmt.createTable "b1" "x" [] true :=
  ((silver_batch w8tables w8analysis none (by decide) w8b1 (by decide) (by decide)).2
      (by decide)).2 w8stmts (by rfl) (Stmt.createSchema "silver") (by decide) "x" [] true

end DataModel
